import Mathlib

/-!
Verification of the torgi.org lot-list extractor (`src/parse_trades.py`)
against its specification.

The Python source is shallowly embedded:
  * `Dec` models `decimal.Decimal` restricted to finite values, as a pair
    coefficient/exponent with value `coeff * 10 ^ exp`;
  * Python strings are Lean `String`s; the string methods the source uses
    (`replace`, `strip`, `isdigit`) are modelled by executable functions
    below, each documented with the Python behaviour it follows;
  * the HTML document (the source parses it with BeautifulSoup) is modelled
    as a tree of element/text nodes, with `find_all`, `get_text` and
    `find("a", href=True)` modelled as preorder traversals, which is
    BeautifulSoup's document order.
-/

/-- Model of `decimal.Decimal` restricted to finite values: the decimal
number `coeff * 10 ^ exp`.  `Decimal("1200000.00")` is `⟨120000000, -2⟩`,
keeping the precision of the source text.  The special values
(`Infinity`, `NaN`) of the Python class are covered by `PyDecimal`
below. -/
structure Dec where
  coeff : Int
  exp : Int
deriving DecidableEq

/-- The rational value of a finite decimal. -/
def decVal (d : Dec) : ℚ :=
  (d.coeff : ℚ) * (10 : ℚ) ^ d.exp

/-- ASCII decimal digit. -/
def isAsciiDigit (c : Char) : Bool :=
  '0' ≤ c && c ≤ '9'

/-- First code points of the Unicode decimal-digit (Nd) blocks of
Unicode 15.0; each block is the ten consecutive digits 0-9. -/
def ndRangeStarts : List Nat :=
  [0x0030, 0x0660, 0x06F0, 0x07C0, 0x0966, 0x09E6, 0x0A66, 0x0AE6,
   0x0B66, 0x0BE6, 0x0C66, 0x0CE6, 0x0D66, 0x0DE6, 0x0E50, 0x0ED0,
   0x0F20, 0x1040, 0x1090, 0x17E0, 0x1810, 0x1946, 0x19D0, 0x1A80,
   0x1A90, 0x1B50, 0x1BB0, 0x1C40, 0x1C50, 0xA620, 0xA8D0, 0xA900,
   0xA9D0, 0xA9F0, 0xAA50, 0xABF0, 0xFF10, 0x104A0, 0x10D30, 0x11066,
   0x110F0, 0x11136, 0x111D0, 0x112F0, 0x11450, 0x114D0, 0x11650,
   0x116C0, 0x11730, 0x118E0, 0x11950, 0x11C50, 0x11D50, 0x11DA0,
   0x11F50, 0x16A60, 0x16AC0, 0x16B50, 0x1D7CE, 0x1D7D8, 0x1D7E2,
   0x1D7EC, 0x1D7F6, 0x1E140, 0x1E2F0, 0x1E4F0, 0x1E950, 0x1FBF0]

/-- The numeric value of a Unicode decimal digit (Nd), `none` for every
other character. -/
def pyDigitVal (c : Char) : Option Nat :=
  (ndRangeStarts.find? (fun s => decide (s ≤ c.toNat) && decide (c.toNat ≤ s + 9))).map
    (fun s => c.toNat - s)

/-- Whether the character is a Unicode decimal digit (Nd). -/
def isNdDigit (c : Char) : Bool :=
  (pyDigitVal c).isSome

/-- CPython's `numeric_as_ascii` digit transliteration, which `Decimal`'s
constructor applies: a Unicode decimal digit becomes the ASCII digit of
the same value; every other character is kept. -/
def translitDigit (c : Char) : Char :=
  match pyDigitVal c with
  | some v => Char.ofNat (48 + v)
  | none => c

/-- Models the character class of Python's `str.isdigit`: every Unicode
decimal digit (Nd) plus, of the further Numeric_Type=Digit characters
Python also accepts, the superscript digits — a documented subset of that
remainder; every character accepted here is accepted by Python. -/
def isPyDigitChar (c : Char) : Bool :=
  isNdDigit c || c = '¹' || c = '²' || c = '³'

/-- Models Python's `str.isdigit`: true iff the string is non-empty and
every character is a digit character. -/
def pyIsdigit (s : String) : Bool :=
  !s.isEmpty && s.toList.all isPyDigitChar

/-- Models Python's notion of whitespace used by `str.strip()`
(a representative subset of the Unicode whitespace Python strips; every
character listed here is stripped by Python). -/
def pyIsSpace (c : Char) : Bool :=
  c = ' ' || c = '\t' || c = '\n' || c = '\r' || c = '\u000B' ||
    c = '\u000C' || c = '\u0085' || c = '\u00A0'

/-- Models Python's `str.strip()`: removes whitespace from both ends. -/
def pyStrip (s : String) : String :=
  ⟨((s.toList.dropWhile pyIsSpace).reverse.dropWhile pyIsSpace).reverse⟩

/-- Leftmost, non-overlapping replacement of `pat` by `rep`, on character
lists, with explicit fuel so that the recursion is structural; each step
consumes at least one character, so `fuel = length of the input` is
enough. -/
def replaceFuel (pat rep : List Char) : Nat → List Char → List Char
  | 0, s => s
  | _ + 1, [] => []
  | fuel + 1, c :: cs =>
    if pat.isPrefixOf (c :: cs) then
      rep ++ replaceFuel pat rep fuel ((c :: cs).drop pat.length)
    else
      c :: replaceFuel pat rep fuel cs

/-- Models Python's `str.replace(pat, rep)` for non-empty `pat`:
leftmost, non-overlapping. -/
def pyReplace (s pat rep : String) : String :=
  ⟨replaceFuel pat.toList rep.toList s.length s.toList⟩

/-- The cleaning chain of `parse_price` (src/parse_trades.py lines 35-42):
`text.replace("\xa0", " ").replace("руб.", "").replace("руб", "")
.replace(" ", "").replace(",", ".").strip()`. -/
def cleanPrice (text : String) : String :=
  pyStrip (pyReplace (pyReplace (pyReplace (pyReplace
    (pyReplace text "\u00A0" " ") "руб." "") "руб" "") " " "") "," ".")

/-- Reads an optional leading sign; `true` means negative. -/
def readSign : List Char → Bool × List Char
  | '+' :: cs => (false, cs)
  | '-' :: cs => (true, cs)
  | cs => (false, cs)

/-- The natural number denoted by a list of ASCII digits. -/
def digitsVal (cs : List Char) : Nat :=
  cs.foldl (fun a c => 10 * a + (c.toNat - 48)) 0

/-- The decimal built from sign, integer digits, fraction digits and
exponent, as `Decimal`'s constructor does: the coefficient is the digit
string with the point removed, the exponent is lowered by the number of
fraction digits. -/
def mkDec (neg : Bool) (ip fp : List Char) (e : Int) : Dec :=
  { coeff := (if neg then -1 else 1) * (digitsVal (ip ++ fp) : Int),
    exp := e - fp.length }

/-- The finite-number grammar of `decimal.Decimal`'s string constructor
on an already preprocessed character list:
`[sign] (digits [. digits] | . digits) [(e|E) [sign] digits]`, with
nothing left over.  The constructor's preprocessing is `decCleanChars`
and its special forms are handled in `decimalParse` below. -/
def decParseChars (cs : List Char) : Option Dec :=
  let (neg, cs1) := readSign cs
  let ip := cs1.takeWhile isAsciiDigit
  let cs2 := cs1.dropWhile isAsciiDigit
  let (fp, cs3) :=
    match cs2 with
    | '.' :: rest => (rest.takeWhile isAsciiDigit, rest.dropWhile isAsciiDigit)
    | _ => ([], cs2)
  if ip.isEmpty && fp.isEmpty then none
  else
    match cs3 with
    | [] => some (mkDec neg ip fp 0)
    | c :: rest =>
      if c = 'e' || c = 'E' then
        let (eneg, rest1) := readSign rest
        let ed := rest1.takeWhile isAsciiDigit
        let rest2 := rest1.dropWhile isAsciiDigit
        if ed.isEmpty || !rest2.isEmpty then none
        else some (mkDec neg ip fp
          (if eneg then -(digitsVal ed : Int) else (digitsVal ed : Int)))
      else none

/-- The preprocessing `decimal.Decimal`'s constructor applies to its
string argument before matching the grammar: strip whitespace, drop the
underscores it tolerates, and transliterate Unicode decimal digits to
ASCII. -/
def decCleanChars (s : String) : List Char :=
  ((pyReplace (pyStrip s) "_" "").toList).map translitDigit

/-- Models `decimal.Decimal(s)` restricted to finite results: the numeral
grammar on the preprocessed string.  The full constructor, its special
forms included, is `decimalParse` below. -/
def decParse (s : String) : Option Dec :=
  decParseChars (decCleanChars s)

/-- `parse_price` (src/parse_trades.py lines 31-49): clean the text; an
empty result raises `ValueError("Пустая цена")`; a result `Decimal`
rejects raises `ValueError` carrying the original text; otherwise the
parsed decimal is returned.  Exceptions are modelled by `Except.error`.
This version keeps the finite result type `Dec`, the price domain of the
`Lot` model; `parse_price_full` below models the same function over
`Decimal`'s full value space, and the bridge lemmas
`parse_price_full_ok_num` and `parse_price_error_of_full_error` relate
the two. -/
def parse_price (text : String) : Except String Dec :=
  let cleaned := cleanPrice text
  if cleaned = "" then Except.error "Пустая цена"
  else
    match decParse cleaned with
    | some d => Except.ok d
    | none => Except.error ("Не удалось разобрать цену '" ++ text ++ "'")

/-- The value space of `decimal.Decimal`: a finite decimal, a signed
infinity, or a (quiet or signaling) NaN.  A NaN's sign is kept; the
payload digits the constructor accepts after `NaN`/`sNaN` are not
retained in the value. -/
inductive PyDecimal where
  | num (d : Dec)
  | inf (neg : Bool)
  | nan (neg : Bool) (signaling : Bool)
deriving DecidableEq

/-- Lowercases an ASCII letter, keeping every other character. -/
def toLowerAscii (c : Char) : Char :=
  if 'A' ≤ c && c ≤ 'Z' then Char.ofNat (c.toNat + 32) else c

/-- The special forms of `decimal.Decimal`'s constructor, matched
case-insensitively after the optional sign: `Inf`, `Infinity`,
`NaN [digits]`, `sNaN [digits]`. -/
def decimalSpecial (cs : List Char) : Option PyDecimal :=
  let (neg, cs1) := readSign cs
  let low := cs1.map toLowerAscii
  if low = "inf".toList || low = "infinity".toList then some (PyDecimal.inf neg)
  else
    match low with
    | 'n' :: 'a' :: 'n' :: rest =>
      if rest.all isNdDigit then some (PyDecimal.nan neg false) else none
    | 's' :: 'n' :: 'a' :: 'n' :: rest =>
      if rest.all isNdDigit then some (PyDecimal.nan neg true) else none
    | _ => none

/-- Models `decimal.Decimal(s)` in full: the preprocessed string is read
as a finite numeral or as one of the special forms.  The two alternatives
of the constructor's grammar are disjoint — a numeral starts with a digit
or a point after the sign, a special form with a letter — so trying the
numeral first loses nothing. -/
def decimalParse (s : String) : Option PyDecimal :=
  match decParseChars (decCleanChars s) with
  | some d => some (PyDecimal.num d)
  | none => decimalSpecial (decCleanChars s)

/-- `parse_price` modelled over the full value space of `Decimal`
(src/parse_trades.py lines 31-49): textually `parse_price` with the full
constructor model `decimalParse` in place of its finite restriction
`decParse`. -/
def parse_price_full (text : String) : Except String PyDecimal :=
  let cleaned := cleanPrice text
  if cleaned = "" then Except.error "Пустая цена"
  else
    match decimalParse cleaned with
    | some d => Except.ok d
    | none => Except.error ("Не удалось разобрать цену '" ++ text ++ "'")

theorem decimalParse_num {s : String} {d : Dec} (h : decParse s = some d) :
    decimalParse s = some (PyDecimal.num d) := by
  unfold decimalParse
  unfold decParse at h
  rw [h]

theorem decParse_none_of_decimalParse_none {s : String}
    (h : decimalParse s = none) : decParse s = none := by
  unfold decimalParse at h
  unfold decParse
  cases hd : decParseChars (decCleanChars s) with
  | none => rfl
  | some d => rw [hd] at h; exact absurd h (by simp)

/-- A success of the finite `parse_price` is a success of the full model
on the same value. -/
theorem parse_price_full_ok_num {text : String} {d : Dec}
    (h : parse_price text = Except.ok d) :
    parse_price_full text = Except.ok (PyDecimal.num d) := by
  by_cases h1 : cleanPrice text = ""
  · exfalso
    simp [parse_price, h1] at h
  · have h2 : decParse (cleanPrice text) = some d := by
      simp only [parse_price] at h
      rw [if_neg h1] at h
      cases hd : decParse (cleanPrice text) with
      | none => rw [hd] at h; exact absurd h (by simp)
      | some d' =>
        rw [hd] at h
        have hdd : d' = d := by simpa using h
        rw [hdd]
    simp only [parse_price_full]
    rw [if_neg h1, decimalParse_num h2]

/-- A failure of the full model is a failure of the finite `parse_price`,
with the same error. -/
theorem parse_price_error_of_full_error {text e : String}
    (h : parse_price_full text = Except.error e) :
    parse_price text = Except.error e := by
  by_cases h1 : cleanPrice text = ""
  · have he : e = "Пустая цена" := by
      simp only [parse_price_full] at h
      rw [if_pos h1] at h
      simpa using h.symm
    subst he
    simp only [parse_price]
    rw [if_pos h1]
  · simp only [parse_price_full] at h
    rw [if_neg h1] at h
    cases hd : decimalParse (cleanPrice text) with
    | some v => rw [hd] at h; exact absurd h (by simp)
    | none =>
      rw [hd] at h
      have he : e = "Не удалось разобрать цену '" ++ text ++ "'" := by
        simpa using h.symm
      subst he
      have h2 : decParse (cleanPrice text) = none :=
        decParse_none_of_decimalParse_none hd
      simp only [parse_price]
      rw [if_neg h1, h2]


/-- An HTML node as BeautifulSoup presents it after parsing: a text node,
or an element with a tag name, attributes and children.  A document is a
list of top-level nodes; the HTML-to-tree parsing itself (lxml) stays
outside the model. -/
inductive Node where
  | text : String → Node
  | elem : String → List (String × String) → List Node → Node

instance : Inhabited Node := ⟨Node.text ""⟩

mutual
/-- All elements with tag `tag` in the subtree rooted at the node, the
node itself included, in document (preorder) order — the order
BeautifulSoup's `find_all` returns. -/
def collectTag (tag : String) : Node → List Node
  | .text _ => []
  | .elem t attrs cs =>
    (if t = tag then [Node.elem t attrs cs] else []) ++ collectTagL tag cs
/-- `collectTag` over a list of nodes, left to right. -/
def collectTagL (tag : String) : List Node → List Node
  | [] => []
  | n :: ns => collectTag tag n ++ collectTagL tag ns
end

/-- Models `element.find_all(tag)`: the matching elements among the
node's descendants (the node itself excluded), in document order. -/
def findAll (tag : String) (n : Node) : List Node :=
  match n with
  | .text _ => []
  | .elem _ _ cs => collectTagL tag cs

mutual
/-- The text-node strings of a subtree in document order (the node's own
string if it is a text node), as BeautifulSoup's `strings` yields them. -/
def nodeStrings : Node → List String
  | .text s => [s]
  | .elem _ _ cs => nodeStringsL cs
/-- `nodeStrings` over a list of nodes, left to right. -/
def nodeStringsL : List Node → List String
  | [] => []
  | n :: ns => nodeStrings n ++ nodeStringsL ns
end

/-- Models `element.get_text(" ", strip=True)`: each descendant string is
stripped, those that become empty are dropped, and the rest are joined
with a single space. -/
def getText (n : Node) : String :=
  String.intercalate " " (((nodeStrings n).map pyStrip).filter (fun s => !s.isEmpty))

/-- First value of the key in an attribute list. -/
def lookupAttr (attrs : List (String × String)) (key : String) : Option String :=
  match attrs with
  | [] => none
  | (k, v) :: rest => if k = key then some v else lookupAttr rest key

mutual
/-- The first `<a>` element carrying an `href` attribute in the subtree
rooted at the node, the node itself included, in document order. -/
def findAHrefNode : Node → Option Node
  | .text _ => none
  | .elem t attrs cs =>
    if t = "a" && (lookupAttr attrs "href").isSome then some (Node.elem t attrs cs)
    else findAHrefL cs
/-- `findAHrefNode` over a list of nodes, first hit wins. -/
def findAHrefL : List Node → Option Node
  | [] => none
  | n :: ns =>
    match findAHrefNode n with
    | some r => some r
    | none => findAHrefL ns
end

/-- Models `element.find("a", href=True)`: the first `<a>` descendant
with an `href` attribute, or `none`. -/
def findAHref (n : Node) : Option Node :=
  match n with
  | .text _ => none
  | .elem _ _ cs => findAHrefL cs

/-- Models `tag["href"]`-style attribute access on an element already
known to carry the attribute. -/
def getAttr (n : Node) (key : String) : String :=
  match n with
  | .text _ => ""
  | .elem _ attrs _ => (lookupAttr attrs key).getD ""

/-- `BASE_URL` (src/parse_trades.py line 14). -/
def BASE_URL : String := "https://torgi.org"

/-- Models Python's `str.startswith`. -/
def pyStartsWith (s p : String) : Bool :=
  p.toList.isPrefixOf s.toList

/-- The string without its first `n` characters. -/
def strDrop (s : String) (n : Nat) : String :=
  ⟨s.toList.drop n⟩

/-- A character allowed in a URL scheme. -/
def isSchemeChar (c : Char) : Bool :=
  c.isAlpha || c.isDigit || c = '+' || c = '-' || c = '.'

/-- Whether the string starts with a `scheme:` part. -/
def hasScheme (s : String) : Bool :=
  match s.toList with
  | [] => false
  | c :: rest =>
    c.isAlpha &&
      (match rest.dropWhile isSchemeChar with
       | ':' :: _ => true
       | _ => false)

/-- Models `urllib.parse.urljoin(base, url)` for the constant base
`"https://torgi.org"` (host only: empty path, query and fragment), the
only base the source uses: an empty url yields the base; a url with a
different scheme, or with scheme and netloc, is returned as is; a
scheme-relative `//…` url gets the base's scheme; otherwise the url is
resolved against the base's empty path.  Dot-segment normalization and
case-insensitive scheme comparison are omitted from the model (no claim
exercises them). -/
def urljoin (base url : String) : String :=
  if url = "" then base
  else if pyStartsWith url "https://" then url
  else if pyStartsWith url "//" then "https:" ++ url
  else if hasScheme url && !pyStartsWith url "https:" then url
  else
    let path := if pyStartsWith url "https:" then strDrop url 6 else url
    if pyStartsWith path "/" || pyStartsWith path "?" || pyStartsWith path "#" then
      base ++ path
    else base ++ "/" ++ path

/-- One extracted lot: the dictionary
`{"code": …, "title": …, "price": …, "url": …}` built in `parse_lots`
(src/parse_trades.py lines 95-102). -/
structure Lot where
  code : String
  title : String
  price : Dec
  url : Option String
deriving DecidableEq

/-- `code_text` in the source: the text of `cells[0]`, the row's cells
being `row.find_all("td")`. -/
def rowCodeText (row : Node) : String :=
  getText ((findAll "td" row).getD 0 default)

/-- `title` in the source: the text of `name_cell = cells[1]`. -/
def rowTitle (row : Node) : String :=
  getText ((findAll "td" row).getD 1 default)

/-- `price_text` in the source: the text of `cells[5]`. -/
def rowPriceText (row : Node) : String :=
  getText ((findAll "td" row).getD 5 default)

/-- `url` in the source: `urljoin(BASE_URL, link_tag["href"])` when
`name_cell.find("a", href=True)` finds a link, else `None`. -/
def rowUrl (row : Node) : Option String :=
  (findAHref ((findAll "td" row).getD 1 default)).map
    (fun a => urljoin BASE_URL (getAttr a "href"))

/-- The loop body of `parse_lots` for one row (src/parse_trades.py lines
70-102): fewer than 7 `td` cells, or a first cell whose text fails
`str.isdigit`, or a price text `parse_price` rejects, drops the row
(`continue`); otherwise the lot is built from the row.  The source's
locals `code_text`, `title`, `price_text`, `url` are the definitions
`rowCodeText`, `rowTitle`, `rowPriceText`, `rowUrl` above. -/
def rowToLot (row : Node) : Option Lot :=
  if (findAll "td" row).length < 7 then none
  else if !pyIsdigit (rowCodeText row) then none
  else
    match parse_price (rowPriceText row) with
    | .error _ => none
    | .ok price =>
      some { code := rowCodeText row, title := rowTitle row, price := price,
             url := rowUrl row }

/-- `parse_lots` (src/parse_trades.py lines 52-104): every `tr` of the
document in document order, the qualifying ones appended to the result
list. -/
def parse_lots (doc : List Node) : List Lot :=
  (collectTagL "tr" doc).foldl
    (fun lots row =>
      match rowToLot row with
      | some l => lots ++ [l]
      | none => lots)
    []

/-- The predicate `in_range` defined inside `filter_lots_by_price`
(src/parse_trades.py lines 116-121). -/
def in_range (min_price max_price : Option Dec) (price : Dec) : Bool :=
  if min_price.any (fun m => decide (decVal price < decVal m)) then false
  else if max_price.any (fun M => decide (decVal M < decVal price)) then false
  else true

/-- `filter_lots_by_price` (src/parse_trades.py lines 107-123). -/
def filter_lots_by_price (lots : List Lot) (min_price max_price : Option Dec) :
    List Lot :=
  if min_price.isNone && max_price.isNone then lots
  else lots.filter (fun lot => in_range min_price max_price lot.price)

/-- Descending price order: `a` before `b` when `b`'s price is at most
`a`'s. -/
def lotGE (a b : Lot) : Prop := decVal b.price ≤ decVal a.price

instance (a b : Lot) : Decidable (lotGE a b) :=
  inferInstanceAs (Decidable (decVal b.price ≤ decVal a.price))

/-- Models `sorted(lots, key=lambda lot: lot["price"], reverse=True)`
(src/parse_trades.py line 203).  Python's `sorted` is a stable sort, and
`reverse=True` keeps stability; a stable sort's output is determined by
the order and the stability requirement, so the model uses insertion
sort, which is stable for this total preorder. -/
def sort_descending (lots : List Lot) : List Lot :=
  List.insertionSort lotGE lots

theorem rowToLot_none_of_short {row : Node} (h : (findAll "td" row).length < 7) :
    rowToLot row = none := by
  unfold rowToLot
  rw [if_pos h]

theorem rowToLot_none_of_nondigit {row : Node} (h : pyIsdigit (rowCodeText row) = false) :
    rowToLot row = none := by
  unfold rowToLot
  split
  · rfl
  · rw [if_pos (by simp [h])]

theorem rowToLot_none_of_price_error {row : Node} {e : String}
    (h : parse_price (rowPriceText row) = Except.error e) :
    rowToLot row = none := by
  unfold rowToLot
  split
  · rfl
  · split
    · rfl
    · rw [h]

theorem rowToLot_some_spec {row : Node} {l : Lot} (h : rowToLot row = some l) :
    7 ≤ (findAll "td" row).length ∧ pyIsdigit (rowCodeText row) = true ∧
      parse_price (rowPriceText row) = Except.ok l.price ∧
      l.code = rowCodeText row ∧ l.title = rowTitle row ∧ l.url = rowUrl row := by
  unfold rowToLot at h
  split at h
  · exact absurd h (by simp)
  · next h7 =>
    have h7' : 7 ≤ (findAll "td" row).length := Nat.le_of_not_lt h7
    split at h
    · exact absurd h (by simp)
    · next hd =>
      have hd' : pyIsdigit (rowCodeText row) = true := by
        simpa using hd
      cases hp : parse_price (rowPriceText row) with
      | error e => rw [hp] at h; exact absurd h (by simp)
      | ok price =>
        rw [hp] at h
        have hl : (⟨rowCodeText row, rowTitle row, price, rowUrl row⟩ : Lot) = l := by
          simpa using h
        refine ⟨h7', hd', ?_, ?_, ?_, ?_⟩ <;> rw [← hl]

theorem foldl_append_eq_filterMap (f : Node → Option Lot) :
    ∀ (rows : List Node) (acc : List Lot),
      rows.foldl
        (fun lots row =>
          match f row with
          | some l => lots ++ [l]
          | none => lots) acc
        = acc ++ rows.filterMap f := by
  intro rows
  induction rows with
  | nil => intro acc; simp
  | cons r rs ih =>
    intro acc
    cases h : f r with
    | some l => simp [List.foldl_cons, h, ih, List.filterMap_cons]
    | none => simp [List.foldl_cons, h, ih, List.filterMap_cons]

/-- `parse_lots` is the `filterMap` of the per-row extraction over the
document's rows in document order. -/
theorem parse_lots_eq_filterMap (doc : List Node) :
    parse_lots doc = (collectTagL "tr" doc).filterMap rowToLot := by
  unfold parse_lots
  rw [foldl_append_eq_filterMap]
  simp

theorem mem_parse_lots {doc : List Node} {l : Lot} :
    l ∈ parse_lots doc ↔ ∃ row ∈ collectTagL "tr" doc, rowToLot row = some l := by
  rw [parse_lots_eq_filterMap]
  simp [List.mem_filterMap]

instance : IsTotal Lot lotGE :=
  ⟨fun a b => le_total (decVal b.price) (decVal a.price)⟩

instance : IsTrans Lot lotGE :=
  ⟨fun _ _ _ h1 h2 => le_trans h2 h1⟩

theorem filter_orderedInsert_of_eq (v : ℚ) (a : Lot) (ha : decVal a.price = v) :
    ∀ l : List Lot,
      (List.orderedInsert lotGE a l).filter (fun x => decide (decVal x.price = v))
        = a :: l.filter (fun x => decide (decVal x.price = v)) := by
  intro l
  induction l with
  | nil => simp [ha]
  | cons b t ih =>
    by_cases hab : lotGE a b
    · rw [List.orderedInsert, if_pos hab]
      simp [List.filter_cons, ha]
    · rw [List.orderedInsert, if_neg hab]
      have hb : ¬ (decVal b.price = v) := by
        intro hv
        exact hab (le_of_eq (by rw [hv, ha]))
      simp [List.filter_cons, hb, ih]

theorem filter_orderedInsert_of_ne (v : ℚ) (a : Lot) (ha : ¬ decVal a.price = v) :
    ∀ l : List Lot,
      (List.orderedInsert lotGE a l).filter (fun x => decide (decVal x.price = v))
        = l.filter (fun x => decide (decVal x.price = v)) := by
  intro l
  induction l with
  | nil => simp [ha]
  | cons b t ih =>
    by_cases hab : lotGE a b
    · rw [List.orderedInsert, if_pos hab]
      simp [List.filter_cons, ha]
    · rw [List.orderedInsert, if_neg hab]
      simp [List.filter_cons, ih]

/-- Insertion sort with `lotGE` moves no element across an element of the
same price: the subsequence at any fixed price value is unchanged. -/
theorem filter_insertionSort (v : ℚ) :
    ∀ l : List Lot,
      (List.insertionSort lotGE l).filter (fun x => decide (decVal x.price = v))
        = l.filter (fun x => decide (decVal x.price = v)) := by
  intro l
  induction l with
  | nil => rfl
  | cons a t ih =>
    rw [List.insertionSort]
    by_cases ha : decVal a.price = v
    · rw [filter_orderedInsert_of_eq v a ha, ih]
      simp [List.filter_cons, ha]
    · rw [filter_orderedInsert_of_ne v a ha, ih]
      simp [List.filter_cons, ha]

/-- Two lists sorted by descending price with the same price-class
subsequences are equal: descending order fixes how the classes interleave
and the class subsequences fix the rest. -/
theorem sorted_stable_unique :
    ∀ l₁ l₂ : List Lot, l₁.Sorted lotGE → l₂.Sorted lotGE →
      (∀ v : ℚ, l₁.filter (fun x => decide (decVal x.price = v))
          = l₂.filter (fun x => decide (decVal x.price = v))) →
      l₁ = l₂ := by
  intro l₁
  induction l₁ with
  | nil =>
    intro l₂ _ _ hf
    cases l₂ with
    | nil => rfl
    | cons b t₂ =>
      exfalso
      have h := hf (decVal b.price)
      rw [List.filter_cons] at h
      simp at h
  | cons a t₁ ih =>
    intro l₂ hs₁ hs₂ hf
    cases l₂ with
    | nil =>
      exfalso
      have h := hf (decVal a.price)
      rw [List.filter_cons] at h
      simp at h
    | cons b t₂ =>
      have hpair₁ := List.sorted_cons.mp hs₁
      have hpair₂ := List.sorted_cons.mp hs₂
      have hb1 : b ∈ a :: t₁ := by
        have h := hf (decVal b.price)
        have hmemf : b ∈ (a :: t₁).filter (fun x => decide (decVal x.price = decVal b.price)) := by
          rw [h, List.filter_cons]
          simp
        exact List.mem_of_mem_filter hmemf
      have ha2 : a ∈ b :: t₂ := by
        have h := hf (decVal a.price)
        have hmemf : a ∈ (b :: t₂).filter (fun x => decide (decVal x.price = decVal a.price)) := by
          rw [← h, List.filter_cons]
          simp
        exact List.mem_of_mem_filter hmemf
      have hba : decVal b.price ≤ decVal a.price := by
        rcases List.mem_cons.mp hb1 with hEq | hm
        · exact le_of_eq (congrArg (fun x => decVal x.price) hEq)
        · exact hpair₁.1 b hm
      have hab : decVal a.price ≤ decVal b.price := by
        rcases List.mem_cons.mp ha2 with hEq | hm
        · exact le_of_eq (congrArg (fun x => decVal x.price) hEq)
        · exact hpair₂.1 a hm
      have hv : decVal a.price = decVal b.price := le_antisymm hab hba
      have h := hf (decVal a.price)
      rw [List.filter_cons, List.filter_cons] at h
      simp [hv] at h
      obtain ⟨hab', hts⟩ := h
      subst hab'
      have htail : t₁ = t₂ := by
        apply ih t₂ hpair₁.2 hpair₂.2
        intro v
        by_cases hv' : decVal a.price = v
        · have h' := hf v
          rw [List.filter_cons, List.filter_cons] at h'
          simp [hv'] at h'
          exact h'
        · have h' := hf v
          rw [List.filter_cons, List.filter_cons] at h'
          simp [hv'] at h'
          exact h'
      rw [htail]

/-- The model choice in `sort_descending` discharged: any list sorted by
descending price whose price-class subsequences are the input's — the
output of any stable descending sort of `lots`, Python's
`sorted(…, reverse=True)` in particular — is exactly `sort_descending
lots`. -/
theorem stable_descending_sort_unique (lots out : List Lot)
    (hs : out.Sorted lotGE)
    (hf : ∀ v : ℚ, out.filter (fun x => decide (decVal x.price = v))
        = lots.filter (fun x => decide (decVal x.price = v))) :
    out = sort_descending lots :=
  sorted_stable_unique out (sort_descending lots) hs
    (List.sorted_insertionSort lotGE lots)
    (fun v => (hf v).trans (filter_insertionSort v lots).symm)

/-- Spec-side definition, from the claim's words: the price lies within
the inclusive bounds, an absent bound meaning unbounded on that side. -/
def inBoundsSpec (min_price max_price : Option Dec) (p : Dec) : Bool :=
  (min_price.all fun m => decide (decVal m ≤ decVal p)) &&
    (max_price.all fun M => decide (decVal p ≤ decVal M))

theorem in_range_eq_inBoundsSpec (a b : Option Dec) (p : Dec) :
    in_range a b p = inBoundsSpec a b p := by
  unfold in_range inBoundsSpec
  cases a with
  | none =>
    cases b with
    | none => simp
    | some M =>
      by_cases h : decVal M < decVal p
      · simp [h, not_le.mpr h]
      · simp [h, not_lt.mp h]
  | some m =>
    by_cases h1 : decVal p < decVal m
    · simp [h1, not_le.mpr h1]
    · cases b with
      | none => simp [h1, not_lt.mp h1]
      | some M =>
        by_cases h2 : decVal M < decVal p
        · simp [h1, h2, not_le.mpr h2]
        · simp [h1, h2, not_lt.mp h1, not_lt.mp h2]

/-- A `td` cell holding one text node. -/
def tdText (s : String) : Node := Node.elem "td" [] [Node.text s]

/-- An empty `td` cell. -/
def td0 : Node := Node.elem "td" [] []

/-- A `tr` row with the given cells. -/
def trOf (cells : List Node) : Node := Node.elem "tr" [] cells

/-- A qualifying row whose price text is the negative numeral `-5`. -/
def negPriceRow : Node :=
  trOf [tdText "7", tdText "T", td0, td0, td0, tdText "-5", td0]

/-- A one-row document around `negPriceRow`. -/
def negPriceDoc : List Node := [Node.elem "table" [] [negPriceRow]]

/-- A row whose first cell is the superscript-two character, which passes
Python's `str.isdigit` without being a decimal digit. -/
def supDigitRow : Node :=
  trOf [tdText "²", tdText "S", td0, td0, td0, tdText "4", td0]

/-- A document with the negative-price row and the superscript-code row. -/
def c1doc : List Node := [Node.elem "table" [] [negPriceRow, supDigitRow]]

/-- A one-row document around `supDigitRow`. -/
def supDigitDoc : List Node := [Node.elem "table" [] [supDigitRow]]

/-- A row whose price text `abc` fails price parsing. -/
def badPriceRow : Node :=
  trOf [tdText "5", tdText "T", td0, td0, td0, tdText "abc", td0]

/-- A row with only one cell. -/
def shortRow : Node := trOf [tdText "9"]

/-- A row whose first cell reads `12a`. -/
def nondigitRow : Node :=
  trOf [tdText "12a", tdText "B", td0, td0, td0, tdText "1", td0]

/-- A qualifying row: code `8`, title `A`, price text `3`. -/
def okRow : Node :=
  trOf [tdText "8", tdText "A", td0, td0, td0, tdText "3", td0]

/-- A document mixing a non-digit-code row, a qualifying row and a short
row. -/
def mixedDoc : List Node := [nondigitRow, okRow, shortRow]

/-- A qualifying row whose second cell is empty: no title text. -/
def emptyTitleRow : Node :=
  trOf [tdText "3", td0, td0, td0, td0, tdText "5", td0]

/-- A one-row document around `emptyTitleRow`. -/
def emptyTitleDoc : List Node := [emptyTitleRow]

/-- The qualifying row of the spec's end-to-end example: code `42`, title
`Lot A` with a link to `/x`, price text `1 000,50 руб.`, 7 cells. -/
def c9row1 : Node := trOf [tdText "42",
  Node.elem "td" [] [Node.elem "a" [("href", "/x")] [Node.text "Lot A"]],
  td0, td0, td0, tdText "1 000,50 руб.", td0]

/-- The non-qualifying row of the end-to-end example: first cell `N/A`. -/
def c9row2 : Node := trOf [tdText "N/A", td0, td0, td0, td0, td0, td0]

/-- The 2-row synthetic table of the spec's end-to-end example. -/
def c9doc : List Node := [Node.elem "table" [] [c9row1, c9row2]]

/-- C1 counterexample: both conjuncts of the claim fail on the code.  On
a document with a qualifying row whose price text is `-5` and a row whose
first cell is `²` (`str.isdigit` accepts it), `parse_lots` outputs a lot
with a negative price and a lot whose code `²` does not match
`^[0-9]+$`. -/
theorem c1_counterexample :
    parse_lots c1doc
        = [⟨"7", "T", ⟨-5, 0⟩, none⟩, ⟨"²", "S", ⟨4, 0⟩, none⟩] ∧
      decVal ⟨-5, 0⟩ < 0 ∧
      (String.toList "²").all isAsciiDigit = false :=
  ⟨rfl, by norm_num [decVal], rfl⟩

/-- C1 (amended): every Lot produced by `parse_lots` has a non-empty code
every character of which passes the digit test the code uses (Python's
`str.isdigit`; all ASCII digits pass it, but `c1_counterexample` shows a
`²` code, so `^[0-9]+$` does not hold); the price carries no sign
guarantee (`c1_counterexample` again). -/
theorem c1_lot_code_digits (doc : List Node) (lot : Lot)
    (h : lot ∈ parse_lots doc) :
    lot.code ≠ "" ∧ lot.code.toList.all isPyDigitChar = true := by
  obtain ⟨row, _, hrow⟩ := mem_parse_lots.mp h
  obtain ⟨-, hd, -, hcode, -, -⟩ := rowToLot_some_spec hrow
  rw [hcode]
  unfold pyIsdigit at hd
  simp only [Bool.and_eq_true] at hd
  obtain ⟨h1, h2⟩ := hd
  refine ⟨?_, h2⟩
  intro he
  rw [he] at h1
  exact absurd h1 (by decide)

/-- C1 witness: the amended statement at the concrete document
`negPriceDoc`. -/
theorem c1_witness :
    (Lot.mk "7" "T" ⟨-5, 0⟩ none).code ≠ "" ∧
      (Lot.mk "7" "T" ⟨-5, 0⟩ none).code.toList.all isPyDigitChar = true :=
  c1_lot_code_digits negPriceDoc (Lot.mk "7" "T" ⟨-5, 0⟩ none) (by
    have h : parse_lots negPriceDoc = [⟨"7", "T", ⟨-5, 0⟩, none⟩] := rfl
    rw [h]
    exact List.mem_singleton.mpr rfl)

/-- C2: a price-parse failure on a row's sixth cell makes that row's
extraction yield nothing (no partial lot), and `parse_lots` always
returns the `filterMap` of per-row extraction over all rows — the error
never escapes a row, and every document yields a (possibly empty) list. -/
theorem c2_price_error_row_scoped (doc : List Node) (row : Node) (e : String)
    (h : parse_price (rowPriceText row) = Except.error e) :
    rowToLot row = none ∧
      parse_lots doc = (collectTagL "tr" doc).filterMap rowToLot :=
  ⟨rowToLot_none_of_price_error h, parse_lots_eq_filterMap doc⟩

/-- C2 witness: the row whose price text is `abc` is dropped. -/
theorem c2_witness :
    rowToLot badPriceRow = none ∧
      parse_lots [badPriceRow] = (collectTagL "tr" [badPriceRow]).filterMap rowToLot :=
  c2_price_error_row_scoped [badPriceRow] badPriceRow
    "Не удалось разобрать цену 'abc'" rfl

/-- C3 counterexample: the claim fails on the code — a row whose first
cell `²` is not made of decimal digits, but passes `str.isdigit`, is
represented in the output. -/
theorem c3_counterexample :
    parse_lots supDigitDoc = [⟨"²", "S", ⟨4, 0⟩, none⟩] ∧
      rowCodeText supDigitRow = "²" ∧
      (String.toList "²").all isAsciiDigit = false :=
  ⟨rfl, rfl, rfl⟩

/-- C3 (amended): every lot in the output comes from a row of the
document with at least 7 cells and a first-cell text passing the digit
test the code uses (Python's `str.isdigit` — weaker than consisting of
decimal digits, see `c3_counterexample`); the output is the `filterMap`
of row extraction over the rows in document order; and `12a` fails the
digit test, so a row with first cell `12a` is never output. -/
theorem c3_qualifying_rows (doc : List Node) (lot : Lot)
    (h : lot ∈ parse_lots doc) :
    (∃ row ∈ collectTagL "tr" doc,
        rowToLot row = some lot ∧
          7 ≤ (findAll "td" row).length ∧
          pyIsdigit (rowCodeText row) = true) ∧
      parse_lots doc = (collectTagL "tr" doc).filterMap rowToLot ∧
      pyIsdigit "12a" = false := by
  obtain ⟨row, hmem, hrow⟩ := mem_parse_lots.mp h
  obtain ⟨h7, hd, -, -, -, -⟩ := rowToLot_some_spec hrow
  exact ⟨⟨row, hmem, hrow, h7, hd⟩, parse_lots_eq_filterMap doc, by decide⟩

/-- C3 witness: the statement at `mixedDoc`, whose only output lot is the
qualifying row's. -/
theorem c3_witness :
    (∃ row ∈ collectTagL "tr" mixedDoc,
        rowToLot row = some (Lot.mk "8" "A" ⟨3, 0⟩ none) ∧
          7 ≤ (findAll "td" row).length ∧
          pyIsdigit (rowCodeText row) = true) ∧
      parse_lots mixedDoc = (collectTagL "tr" mixedDoc).filterMap rowToLot ∧
      pyIsdigit "12a" = false :=
  c3_qualifying_rows mixedDoc (Lot.mk "8" "A" ⟨3, 0⟩ none) (by
    have h : parse_lots mixedDoc = [⟨"8", "A", ⟨3, 0⟩, none⟩] := rfl
    rw [h]
    exact List.mem_singleton.mpr rfl)

/-- C4: `parse_price "1 200 000,00 руб."` is exactly the decimal
`1200000.00` — coefficient 120000000 at exponent -2, so the two
fractional digits of the source text are preserved and the value is
exactly 1200000. -/
theorem c4_price_normalization :
    parse_price "1 200 000,00 руб." = Except.ok ⟨120000000, -2⟩ ∧
      decVal ⟨120000000, -2⟩ = 1200000 :=
  ⟨rfl, by norm_num [decVal]⟩

/-- C5 counterexample: the claim fails on the code.  `Decimal` also
accepts the special forms, so `parse_price` applied to `"Infinity"` — a
text that cleans to itself, non-empty and not a valid decimal numeral —
succeeds with `Decimal('Infinity')` instead of failing. -/
theorem c5_counterexample :
    parse_price_full "Infinity" = Except.ok (PyDecimal.inf false) ∧
      cleanPrice "Infinity" = "Infinity" ∧
      decParse "Infinity" = none :=
  ⟨rfl, rfl, rfl⟩

/-- C5 (amended): `parse_price`, over `Decimal`'s full value space, fails
exactly when the cleaned text is empty or the `Decimal` constructor
rejects it — the constructor accepts the decimal numerals and the special
forms `Infinity`/`NaN`, so "not a valid decimal numeral" is too wide a
failure condition; in particular `parse_price` fails on `""` and on
`"abc"`, in the full model and in its finite restriction alike. -/
theorem c5_constructor_error_iff :
    (∀ text : String,
        (∃ e, parse_price_full text = Except.error e) ↔
          (cleanPrice text = "" ∨ decimalParse (cleanPrice text) = none)) ∧
      (∃ e, parse_price_full "" = Except.error e) ∧
      (∃ e, parse_price_full "abc" = Except.error e) ∧
      (∃ e, parse_price "" = Except.error e) ∧
      (∃ e, parse_price "abc" = Except.error e) := by
  refine ⟨?_, ⟨"Пустая цена", rfl⟩, ⟨"Не удалось разобрать цену 'abc'", rfl⟩,
    ⟨"Пустая цена", rfl⟩, ⟨"Не удалось разобрать цену 'abc'", rfl⟩⟩
  intro text
  constructor
  · rintro ⟨e, he⟩
    by_cases h1 : cleanPrice text = ""
    · exact Or.inl h1
    · right
      cases h2 : decimalParse (cleanPrice text) with
      | none => rfl
      | some d =>
        exfalso
        have hok : parse_price_full text = Except.ok d := by
          simp only [parse_price_full]
          rw [if_neg h1, h2]
        rw [hok] at he
        exact Except.noConfusion he
  · intro h
    rcases h with h1 | h2
    · refine ⟨"Пустая цена", ?_⟩
      simp only [parse_price_full]
      rw [if_pos h1]
    · by_cases h1 : cleanPrice text = ""
      · refine ⟨"Пустая цена", ?_⟩
        simp only [parse_price_full]
        rw [if_pos h1]
      · refine ⟨"Не удалось разобрать цену '" ++ text ++ "'", ?_⟩
        simp only [parse_price_full]
        rw [if_neg h1, h2]

/-- C6: with both bounds absent `filter_lots_by_price` returns the input
itself; in general it returns exactly the input lots whose price lies
within the inclusive bounds (an absent bound is unbounded on that side),
in input order. -/
theorem c6_filter_range (lots : List Lot) (min_price max_price : Option Dec) :
    filter_lots_by_price lots none none = lots ∧
      filter_lots_by_price lots min_price max_price
        = lots.filter (fun lot => inBoundsSpec min_price max_price lot.price) := by
  constructor
  · rfl
  · rcases min_price with _ | m
    · rcases max_price with _ | M
      · simp [filter_lots_by_price, inBoundsSpec]
      · simp only [filter_lots_by_price]
        rw [if_neg (by simp)]
        congr 1
        funext lot
        rw [in_range_eq_inBoundsSpec]
    · simp only [filter_lots_by_price]
      rw [if_neg (by simp)]
      congr 1
      funext lot
      rw [in_range_eq_inBoundsSpec]

/-- C7: `sort_descending` is a permutation of its input, sorted by price
descending (each element's price is at least the next one's), and stable:
for every price value the subsequence of lots at that value is exactly
the input's subsequence, so equal-priced lots keep their relative input
order. -/
theorem c7_sort_descending_stable (lots : List Lot) :
    List.Perm (sort_descending lots) lots ∧
      (sort_descending lots).Sorted lotGE ∧
      ∀ v : ℚ,
        (sort_descending lots).filter (fun x => decide (decVal x.price = v))
          = lots.filter (fun x => decide (decVal x.price = v)) :=
  ⟨List.perm_insertionSort lotGE lots, List.sorted_insertionSort lotGE lots,
    fun v => filter_insertionSort v lots⟩

/-- C8 counterexample: the claim fails on the code — a qualifying row
with an empty second cell is not skipped; price parsing is attempted and
a Lot with an empty title is produced. -/
theorem c8_counterexample :
    (Lot.mk "3" "" ⟨5, 0⟩ none) ∈ parse_lots emptyTitleDoc ∧
      (Lot.mk "3" "" ⟨5, 0⟩ none).title = "" := by
  constructor
  · have h : parse_lots emptyTitleDoc = [⟨"3", "", ⟨5, 0⟩, none⟩] := rfl
    rw [h]
    exact List.mem_singleton.mpr rfl
  · rfl

/-- C8 (amended): a missing title does not disqualify a row — the
extractor performs no title check; every produced Lot's title is exactly
the whitespace-joined text of the row's second cell, which may be empty
(see `c8_counterexample`). -/
theorem c8_title_not_checked (row : Node) (lot : Lot)
    (h : rowToLot row = some lot) :
    lot.title = rowTitle row :=
  (rowToLot_some_spec h).2.2.2.2.1

/-- C8 witness: the amended statement at the concrete row with an empty
second cell. -/
theorem c8_witness :
    (Lot.mk "3" "" ⟨5, 0⟩ none).title = rowTitle emptyTitleRow :=
  c8_title_not_checked emptyTitleRow (Lot.mk "3" "" ⟨5, 0⟩ none) rfl

/-- C9: on the spec's 2-row synthetic table, `parse_lots` returns exactly
one lot — code `42`, title `Lot A`, price exactly 1000.50 (coefficient
100050 at exponent -2), and url `/x` resolved against the base address. -/
theorem c9_end_to_end :
    parse_lots c9doc
        = [⟨"42", "Lot A", ⟨100050, -2⟩, some "https://torgi.org/x"⟩] ∧
      decVal ⟨100050, -2⟩ = 2001 / 2 :=
  ⟨rfl, by norm_num [decVal]⟩

/-- C10: `parse_price` restricts neither sign nor notation beyond
decimal parsability: `-5` parses to the exact negative decimal -5 and the
exponent form `1e3` parses to exactly 1000. -/
theorem c10_no_sign_restriction :
    parse_price "-5" = Except.ok ⟨-5, 0⟩ ∧ decVal ⟨-5, 0⟩ = -5 ∧
      decVal ⟨-5, 0⟩ < 0 ∧
      parse_price "1e3" = Except.ok ⟨1, 3⟩ ∧ decVal ⟨1, 3⟩ = 1000 :=
  ⟨rfl, by norm_num [decVal], by norm_num [decVal], rfl, by norm_num [decVal]⟩
